import Mathlib

/-
Shallow embedding of the asteroid-mq topic state machine
(src/src/protocol/topic.rs) together with the parts of its data model that
the file uses.  Rust HashMap / HashSet contents are embedded as association
lists whose list order stands for the container's iteration order; machine
integers are Nat.  The modules `hold_message.rs`, `wait_ack.rs`,
`interest.rs`, `config.rs` and `util.rs` are declared by the repository but
are not part of the given sources; everything taken from them is modelled
from the specification and marked as such in its doc comment.
-/

namespace AsteroidMQ

abbrev EndpointAddr := Nat
abbrev NodeId := Nat
abbrev TimestampSec := Nat
abbrev MessageId := Nat

/-- Association-list lookup; embeds `HashMap::get`. -/
def alookup {β : Type} : List (Nat × β) → Nat → Option β
  | [], _ => none
  | p :: rest, k => if p.1 = k then some p.2 else alookup rest k

/-- Association-list insert; embeds `HashMap::insert` (replace the value of an
existing key in place, otherwise append the new pair). -/
def ainsert {β : Type} : List (Nat × β) → Nat → β → List (Nat × β)
  | [], k, v => [(k, v)]
  | p :: rest, k, v => if p.1 = k then (k, v) :: rest else p :: ainsert rest k v

/-- Association-list removal; embeds `HashMap::remove`. -/
def aerase {β : Type} (l : List (Nat × β)) (k : Nat) : List (Nat × β) :=
  l.filter (fun p => decide (p.1 ≠ k))

/-- The key list of an association list. -/
def akeys {β : Type} (l : List (Nat × β)) : List Nat :=
  l.map Prod.fst

/-- Removal of one key from a key list. -/
def listRemove (l : List Nat) (k : Nat) : List Nat :=
  l.filter (fun x => decide (x ≠ k))

/-- Modelled from the spec (interest.rs is not under src/): one segment of an
interest pattern — an exact segment, the single-segment wildcard `*`, or the
trailing multi-segment wildcard `>`. -/
inductive InterestAtom
  | seg (s : String)
  | star
  | multi
deriving DecidableEq, Repr

abbrev Interest := List InterestAtom
abbrev Subject := List String

/-- Modelled from the spec (interest.rs is not under src/): segment-wise
pattern match; `*` matches one segment, trailing `>` matches the non-empty
remainder. -/
def interestMatch : Interest → Subject → Bool
  | [], [] => true
  | .seg p :: ps, s :: ss => p == s && interestMatch ps ss
  | [.star], [_] => true
  | .star :: p :: ps, _ :: ss => interestMatch (p :: ps) ss
  | [.multi], _ :: _ => true
  | _, _ => false

/-- Modelled from the spec (interest.rs is not under src/): the interest
index, kept here as its raw inverse map `EndpointAddr → set<Interest>`, the
form `TopicData::snapshot` reads via `self.ep_interest_map.raw`. -/
structure InterestMap where
  raw : List (EndpointAddr × List Interest)
deriving DecidableEq, Repr

/-- Modelled from the spec: idempotent `insert(interest, ep)`. -/
def InterestMap.insert (m : InterestMap) (interest : Interest) (ep : EndpointAddr) : InterestMap :=
  match alookup m.raw ep with
  | some ints => ⟨ainsert m.raw ep (if interest ∈ ints then ints else ints ++ [interest])⟩
  | none => ⟨m.raw ++ [(ep, [interest])]⟩

/-- Modelled from the spec: `delete(ep)` removes the endpoint from every
bucket and from the inverse map. -/
def InterestMap.delete (m : InterestMap) (ep : EndpointAddr) : InterestMap :=
  ⟨aerase m.raw ep⟩

/-- Modelled from the spec: `find(subject)` returns every endpoint holding an
interest that matches the concrete subject. -/
def InterestMap.find (m : InterestMap) (s : Subject) : List EndpointAddr :=
  (m.raw.filter (fun p => p.2.any (fun i => interestMatch i s))).map Prod.fst

/-- Modelled from the spec: the interests registered for one endpoint. -/
def InterestMap.interest_of (m : InterestMap) (ep : EndpointAddr) : Option (List Interest) :=
  alookup m.raw ep

inductive MessageTargetKind
  | durable
  | online
  | available
  | push
deriving DecidableEq, Repr

inductive MessageAckExpectKind
  | noAck
  | sent
  | received
  | processed
deriving DecidableEq, Repr

inductive MessageStatusKind
  | unsent
  | sent
  | received
  | processed
  | unreachable
  | failed
deriving DecidableEq, Repr

structure MessageHeader where
  target_kind : MessageTargetKind
  subjects : List Subject
  ack_kind : MessageAckExpectKind
deriving DecidableEq, Repr

structure Message where
  id : MessageId
  header : MessageHeader
deriving DecidableEq, Repr

def Message.ack_kind (m : Message) : MessageAckExpectKind :=
  m.header.ack_kind

/-- Modelled from the spec (wait_ack.rs is not under src/): the position of a
status in the lattice `Unsent < Sent < Received < Processed`, with the
terminal failure states above the chain. -/
def MessageStatusKind.rank : MessageStatusKind → Nat
  | .unsent => 0
  | .sent => 1
  | .received => 2
  | .processed => 3
  | .unreachable => 4
  | .failed => 5

def MessageAckExpectKind.rank : MessageAckExpectKind → Nat
  | .noAck => 0
  | .sent => 1
  | .received => 2
  | .processed => 3

/-- Modelled from the spec (§3 invariant 4): a per-endpoint status meets the
required ack kind when it reached the threshold or is a terminal failure. -/
def statusMeets (expect : MessageAckExpectKind) (s : MessageStatusKind) : Bool :=
  match s with
  | .unreachable => true
  | .failed => true
  | _ => decide (expect.rank ≤ s.rank)

structure WaitAck where
  expect : MessageAckExpectKind
  status : List (EndpointAddr × MessageStatusKind)
deriving DecidableEq, Repr

/-- `WaitAck::new(ack_kind, ep_collect)`: every endpoint of the recipient set
is initialised to `Unsent` (spec §4.5 step 4; wait_ack.rs is not under src/). -/
def WaitAck.new (expect : MessageAckExpectKind) (ep_collect : List EndpointAddr) : WaitAck :=
  ⟨expect, ep_collect.map (fun e => (e, MessageStatusKind.unsent))⟩

/-- Queue element: the message plus its per-endpoint ack matrix.  The
admission time carried by the durable encoding (spec §4.8) is kept as a
field; `MessageQueue.push` stamps it from the queue's logical admission
clock. -/
structure HoldMessage where
  message : Message
  wait_ack : WaitAck
  time : TimestampSec
deriving DecidableEq, Repr

/-- Modelled from the spec (§3 invariant 4): a message is complete iff every
endpoint of its status map meets the required kind or failed terminally. -/
def HoldMessage.isComplete (hm : HoldMessage) : Bool :=
  hm.wait_ack.status.all (fun p => statusMeets hm.wait_ack.expect p.2)

structure DurableMessage where
  message : Message
  status : List (EndpointAddr × MessageStatusKind)
  time : TimestampSec
deriving DecidableEq, Repr

def HoldMessage.as_durable (hm : HoldMessage) : DurableMessage :=
  ⟨hm.message, hm.wait_ack.status, hm.time⟩

inductive WaitAckErrorException
  | messageDropped
  | overflow
  | noAvailableTarget
deriving DecidableEq, Repr

/-- A resolution delivered through a one-shot `Reporter`. -/
inductive SendResult
  | ok (status : List (EndpointAddr × MessageStatusKind))
  | err (e : WaitAckErrorException)
deriving DecidableEq, Repr

/-- One waiter resolution: which message id was resolved and with what. -/
abbrev Event := MessageId × SendResult

/-- Modelled from the spec (§4.3, hold_message.rs is not under src/): FIFO
admission order `order`, the ancillary unordered map `hold_messages` (its
list order is the map's iteration order), and the local waiter registry
`waiting` (ids holding a live `Reporter`).  `clock` is the logical admission
clock that stamps `HoldMessage.time`. -/
structure MessageQueue where
  clock : TimestampSec
  order : List MessageId
  hold_messages : List (MessageId × HoldMessage)
  waiting : List MessageId
deriving DecidableEq, Repr

def MessageQueue.len (q : MessageQueue) : Nat :=
  q.order.length

def MessageQueue.push (q : MessageQueue) (hm : HoldMessage) : MessageQueue :=
  { clock := q.clock + 1,
    order := q.order ++ [hm.message.id],
    hold_messages := ainsert q.hold_messages hm.message.id { hm with time := q.clock },
    waiting := q.waiting }

def MessageQueue.pop (q : MessageQueue) : Option HoldMessage × MessageQueue :=
  match q.order with
  | [] => (none, q)
  | mid :: rest =>
    (alookup q.hold_messages mid,
     { q with order := rest, hold_messages := aerase q.hold_messages mid })

/-- Modelled from the spec: monotone update of one endpoint's status; no-op
unless the new status is strictly greater in the lattice. -/
def updateHoldStatus (hm : HoldMessage) (from_ep : EndpointAddr) (status : MessageStatusKind) :
    HoldMessage :=
  let st := hm.wait_ack.status.map
    (fun p => if p.1 = from_ep ∧ p.2.rank < status.rank then (p.1, status) else p)
  { hm with wait_ack := { hm.wait_ack with status := st } }

/-- Modelled from the spec (§4.3): `update_ack(mid, from, status)`. -/
def MessageQueue.update_ack (q : MessageQueue) (mid : MessageId) (from_ep : EndpointAddr)
    (status : MessageStatusKind) : MessageQueue :=
  { q with hold_messages :=
      q.hold_messages.map (fun p =>
        if p.1 = mid then (p.1, updateHoldStatus p.2 from_ep status) else p) }

/-- Modelled from the spec (§4.3): `poll(mid)` reports `Ready` iff the message
is complete; `none` when the id is unknown. -/
def MessageQueue.poll_message (q : MessageQueue) (mid : MessageId) : Option Bool :=
  (alookup q.hold_messages mid).map HoldMessage.isComplete

/-- Modelled from the spec (§4.3): strictly in-order flushing — pop the head
while the head is complete, resolving its waiter (when registered) with the
final status map. -/
def flushAux (clock : TimestampSec) :
    List MessageId → List (MessageId × HoldMessage) → List MessageId → MessageQueue × List Event
  | [], hold, waiting => (⟨clock, [], hold, waiting⟩, [])
  | mid :: rest, hold, waiting =>
    match alookup hold mid with
    | none => (⟨clock, mid :: rest, hold, waiting⟩, [])
    | some hm =>
      if hm.isComplete then
        let evs0 : List Event :=
          if mid ∈ waiting then [(mid, SendResult.ok hm.wait_ack.status)] else []
        let r := flushAux clock rest (aerase hold mid) (listRemove waiting mid)
        (r.1, evs0 ++ r.2)
      else (⟨clock, mid :: rest, hold, waiting⟩, [])

def MessageQueue.flush (q : MessageQueue) : MessageQueue × List Event :=
  flushAux q.clock q.order q.hold_messages q.waiting

structure MessageStateUpdate where
  message_id : MessageId
  status : List (EndpointAddr × MessageStatusKind)
deriving DecidableEq, Repr

def MessageStateUpdate.new_empty (id : MessageId) : MessageStateUpdate :=
  ⟨id, []⟩

inductive TopicOverflowPolicy
  | rejectNew
  | dropOld
deriving DecidableEq, Repr

/-- Modelled from the spec (config.rs is not under src/): `size` is a
`NonZeroU32` in the source, so meaningful configurations have `1 ≤ size`. -/
structure TopicOverflowConfig where
  size : Nat
  policy : TopicOverflowPolicy
deriving DecidableEq, Repr

structure TopicConfig where
  code : String
  blocking : Bool
  overflow_config : Option TopicOverflowConfig
deriving DecidableEq, Repr

/-- The replicated per-topic state (`struct TopicData`, topic.rs line 441). -/
structure TopicData where
  config : TopicConfig
  ep_routing_table : List (EndpointAddr × NodeId)
  ep_interest_map : InterestMap
  ep_latest_active : List (EndpointAddr × TimestampSec)
  queue : MessageQueue
deriving DecidableEq, Repr

structure EpInfo where
  addr : EndpointAddr
  host : NodeId
  interests : List Interest
  latest_active : TimestampSec
deriving DecidableEq, Repr

/-- HashSet-style insertion used by `collect_addr_by_subjects`: extend only
with endpoints not yet present. -/
def insertUniqueEp (l : List EndpointAddr) (e : EndpointAddr) : List EndpointAddr :=
  if e ∈ l then l else l ++ [e]

/-- `TopicData::collect_addr_by_subjects` (topic.rs line 158): the union over
the message's subjects of `ep_interest_map.find`; the list order stands for
the `HashSet` iteration order. -/
def TopicData.collect_addr_by_subjects (td : TopicData) (subjects : List Subject) :
    List EndpointAddr :=
  subjects.foldl (fun acc s => (td.ep_interest_map.find s).foldl insertUniqueEp acc) []

/-- The tail of `update_and_flush` on the updated queue: flush when the poll
of the updated message is ready. -/
def uafAfter (td : TopicData) (q1 : MessageQueue) (mid : MessageId) : TopicData × List Event :=
  match q1.poll_message mid with
  | some true => ({ td with queue := q1.flush.1 }, q1.flush.2)
  | _ => ({ td with queue := q1 }, [])

/-- `TopicData::update_and_flush` (topic.rs line 471): apply each status pair,
poll the updated message, and flush from the head when the poll is ready. -/
def TopicData.update_and_flush (td : TopicData) (update : MessageStateUpdate) :
    TopicData × List Event :=
  uafAfter td
    (update.status.foldl (fun q p => q.update_ack update.message_id p.1 p.2) td.queue)
    update.message_id

/-- The overwrite arm of `load_ep_sync`'s loop body: store the remote row and
add its interests. -/
def loadEpSyncApply (td : TopicData) (ep : EpInfo) : TopicData :=
  { td with
    ep_latest_active := ainsert td.ep_latest_active ep.addr ep.latest_active,
    ep_routing_table := ainsert td.ep_routing_table ep.addr ep.host,
    ep_interest_map := ep.interests.foldl (fun m i => m.insert i ep.addr) td.ep_interest_map }

/-- One iteration of `TopicData::load_ep_sync` (topic.rs line 140): skip the
record iff the local `latest_active` is strictly later. -/
def loadEpSyncStep (td : TopicData) (ep : EpInfo) : TopicData :=
  match alookup td.ep_latest_active ep.addr with
  | some existed_record =>
    if ep.latest_active < existed_record then td else loadEpSyncApply td ep
  | none => loadEpSyncApply td ep

def TopicData.load_ep_sync (td : TopicData) (infos : List EpInfo) : TopicData :=
  infos.foldl loadEpSyncStep td

/-- The interest insertions performed by `ep_online` (topic.rs lines 380-382):
fold the endpoint's interests into the interest map. -/
def epOnlineInterestMap (td : TopicData) (endpoint : EndpointAddr) (interests : List Interest) :
    InterestMap :=
  interests.foldl (fun m i => m.insert i endpoint) td.ep_interest_map

/-- The queue scan of `TopicData::ep_online` (topic.rs lines 384-400): extend
a `Durable` hold message whose status map lacks the endpoint and whose
subjects match it in the updated interest map, and mark it for re-poll. -/
def epOnlineScan (imap : InterestMap) (endpoint : EndpointAddr) (p : MessageId × HoldMessage) :
    (MessageId × HoldMessage) × Option MessageId :=
  if p.2.message.header.target_kind = MessageTargetKind.durable ∧
     alookup p.2.wait_ack.status endpoint = none ∧
     p.2.message.header.subjects.any (fun s => (imap.find s).contains endpoint) then
    ((p.1, { p.2 with wait_ack :=
      { p.2.wait_ack with status :=
        p.2.wait_ack.status ++ [(endpoint, MessageStatusKind.unsent)] } }), some p.1)
  else (p, none)

/-- The table and queue mutations of `ep_online` done under the write guards
(topic.rs lines 374-400): store the activity timestamp and routing row,
insert the interests, and extend matching Durable hold messages. -/
def epOnlineTables (td : TopicData) (endpoint : EndpointAddr) (interests : List Interest)
    (host : NodeId) (now : TimestampSec) : TopicData :=
  { td with
    ep_latest_active := ainsert td.ep_latest_active endpoint now,
    ep_routing_table := ainsert td.ep_routing_table endpoint host,
    ep_interest_map := epOnlineInterestMap td endpoint interests,
    queue := { td.queue with hold_messages :=
      (td.queue.hold_messages.map
        (epOnlineScan (epOnlineInterestMap td endpoint interests) endpoint)).map Prod.fst } }

/-- The `message_need_poll` set accumulated by the scan of `ep_online`, in
hold-map encounter order. -/
def epOnlineNeedPoll (td : TopicData) (endpoint : EndpointAddr) (interests : List Interest) :
    List MessageId :=
  (td.queue.hold_messages.map
    (epOnlineScan (epOnlineInterestMap td endpoint interests) endpoint)).filterMap
      (fun r => r.2)

/-- The re-poll loop at the end of `ep_online` (topic.rs lines 402-404):
`update_and_flush(new_empty(id))` for every marked id, accumulating the
waiter resolutions. -/
def repollFold (start : TopicData) (ids : List MessageId) : TopicData × List Event :=
  ids.foldl
    (fun acc id =>
      ((acc.1.update_and_flush (MessageStateUpdate.new_empty id)).1,
        acc.2 ++ (acc.1.update_and_flush (MessageStateUpdate.new_empty id)).2))
    (start, [])

/-- `TopicData::ep_online` (topic.rs line 371).  The `now` argument embeds the
`TimestampSec::now()` wall-clock read on line 378.  Returns the new state,
the `message_need_poll` set and the waiter resolutions produced by the
re-polls. -/
def TopicData.ep_online (td : TopicData) (endpoint : EndpointAddr) (interests : List Interest)
    (host : NodeId) (now : TimestampSec) : TopicData × List MessageId × List Event :=
  ((repollFold (epOnlineTables td endpoint interests host now)
      (epOnlineNeedPoll td endpoint interests)).1,
   epOnlineNeedPoll td endpoint interests,
   (repollFold (epOnlineTables td endpoint interests host now)
      (epOnlineNeedPoll td endpoint interests)).2)

/-- `TopicData::ep_offline` (topic.rs line 407). -/
def TopicData.ep_offline (td : TopicData) (ep : EndpointAddr) : TopicData :=
  { td with
    ep_latest_active := aerase td.ep_latest_active ep,
    ep_routing_table := aerase td.ep_routing_table ep,
    ep_interest_map := td.ep_interest_map.delete ep }

/-- `TopicData::update_ep_interest` (topic.rs line 416): delete then insert. -/
def TopicData.update_ep_interest (td : TopicData) (ep : EndpointAddr) (interests : List Interest) :
    TopicData :=
  { td with ep_interest_map :=
    interests.foldl (fun m i => m.insert i ep) (td.ep_interest_map.delete ep) }

/-- The stand-in for `crate::util::hash64` (util.rs is not under src/): an
arbitrary 64-bit hash, passed explicitly as a function argument. -/
abbrev HashFn := Nat → Nat

def ringLe : (Nat × EndpointAddr) → (Nat × EndpointAddr) → Prop :=
  fun a b => a.1 ≤ b.1

instance : DecidableRel ringLe :=
  fun a b => Nat.decLe a.1 b.1

instance : IsTotal (Nat × EndpointAddr) ringLe :=
  ⟨fun a b => Nat.le_total a.1 b.1⟩

instance : IsTrans (Nat × EndpointAddr) ringLe :=
  ⟨fun _ _ _ => Nat.le_trans⟩

/-- The hash ring of `hold_new_message`'s Push branch (topic.rs lines
497-501): pair each endpoint with its hash and sort by the hash alone with a
stable sort (Rust `sort_by_key`), so ties keep the set-iteration order. -/
def hashRing (hEp : HashFn) (ep_collect : List EndpointAddr) : List (Nat × EndpointAddr) :=
  List.insertionSort ringLe (ep_collect.map (fun ep => (hEp ep, ep)))

/-- The consistent-hash choice (topic.rs line 511): the ring element at index
`hash64(m.id) mod len`; `none` when the ring is empty. -/
def pushSelect (hEp hMid : HashFn) (ep_collect : List EndpointAddr) (mid : MessageId) :
    Option EndpointAddr :=
  ((hashRing hEp ep_collect).get? (hMid mid % (hashRing hEp ep_collect).length)).map Prod.snd

/-- A Rust panic escaping a TopicData method: `unimplemented!` on topic.rs
line 490 or a failed `expect` on line 538. -/
inductive RustPanic
  | unimplementedKind (msg : String)
  | expectFailed (msg : String)
deriving DecidableEq, Repr

/-- `if let Some(report) = queue.waiting.remove(&mid) { report.send(Err(e)) }`:
drop the registration and emit the error resolution iff a waiter exists. -/
def resolveWaiter (waiting : List MessageId) (mid : MessageId) (e : WaitAckErrorException) :
    List MessageId × List Event :=
  if mid ∈ waiting then (listRemove waiting mid, [(mid, SendResult.err e)]) else (waiting, [])

/-- The tail of `hold_new_message` after a successful admission (topic.rs
lines 548-550): push then `update_and_flush(new_empty(m.id))`. -/
def TopicData.push_and_flush (td : TopicData) (message : Message) (hold_message : HoldMessage) :
    TopicData × List Event :=
  let td1 : TopicData := { td with queue := td.queue.push hold_message }
  td1.update_and_flush (MessageStateUpdate.new_empty message.id)

/-- The admission tail of `TopicData::hold_new_message` (topic.rs lines
517-551): build the hold message, run the overflow policy, then push and
flush. -/
def TopicData.admit_message (td : TopicData) (message : Message) (ep_collect : List EndpointAddr) :
    Except RustPanic (TopicData × List Event) :=
  let hold_message : HoldMessage :=
    { message := message, wait_ack := WaitAck.new message.ack_kind ep_collect, time := 0 }
  match td.config.overflow_config with
  | some overflow_config =>
    if overflow_config.size ≤ td.queue.len then
      match overflow_config.policy with
      | .rejectNew =>
        let r := resolveWaiter td.queue.waiting message.id .overflow
        Except.ok ({ td with queue := { td.queue with waiting := r.1 } }, r.2)
      | .dropOld =>
        match td.queue.pop with
        | (none, _) => Except.error (.expectFailed "queue at least one element")
        | (some old, q1) =>
          let r := resolveWaiter q1.waiting old.message.id .overflow
          let td1 : TopicData := { td with queue := { q1 with waiting := r.1 } }
          let s := td1.push_and_flush message hold_message
          Except.ok (s.1, r.2 ++ s.2)
    else Except.ok (td.push_and_flush message hold_message)
  | none => Except.ok (td.push_and_flush message hold_message)

/-- `TopicData::hold_new_message` (topic.rs line 483). -/
def TopicData.hold_new_message (hEp hMid : HashFn) (td : TopicData) (message : Message) :
    Except RustPanic (TopicData × List Event) :=
  match message.header.target_kind with
  | .available => Except.error (.unimplementedKind "available kind is not supported")
  | .durable => td.admit_message message (td.collect_addr_by_subjects message.header.subjects)
  | .online => td.admit_message message (td.collect_addr_by_subjects message.header.subjects)
  | .push =>
    let ep_collect := td.collect_addr_by_subjects message.header.subjects
    match pushSelect hEp hMid ep_collect message.id with
    | none =>
      let r := resolveWaiter td.queue.waiting message.id .noAvailableTarget
      Except.ok ({ td with queue := { td.queue with waiting := r.1 } }, r.2)
    | some ep => td.admit_message message [ep]

/-- `TopicSnapshot` (topic.rs line 557). -/
structure TopicSnapshot where
  config : TopicConfig
  ep_routing_table : List (EndpointAddr × NodeId)
  ep_interest_map : List (EndpointAddr × List Interest)
  ep_latest_active : List (EndpointAddr × TimestampSec)
  queue : List DurableMessage
deriving DecidableEq, Repr

/-- `TopicData::snapshot` (topic.rs lines 582-599): clone the three tables and
the raw interest map, and collect `queue.hold_messages.values()` — in the
hold map's iteration order, without sorting. -/
def TopicData.snapshot (td : TopicData) : TopicSnapshot :=
  { config := td.config,
    ep_routing_table := td.ep_routing_table,
    ep_interest_map := td.ep_interest_map.raw,
    ep_latest_active := td.ep_latest_active,
    queue := td.queue.hold_messages.map (fun p => p.2.as_durable) }

inductive CommitResult
  | committed
  | commitFailed
deriving DecidableEq, Repr

/-- `Topic::wait_ack` / `MessageQueue::wait_ack` (spec §4.4; hold_message.rs
is not under src/): register a one-shot `Reporter` under the message id. -/
def TopicData.wait_ack (td : TopicData) (message_id : MessageId) : TopicData :=
  { td with queue := { td.queue with waiting := td.queue.waiting ++ [message_id] } }

/-- `Topic::send_message` (topic.rs lines 93-103): register the waiter, then
propose `DelegateMessage`; the consensus engine is a black box whose verdict
is the `commit_ok` argument.  On failure the error is returned to the caller
and nothing else happens. -/
def TopicData.send_message (td : TopicData) (message : Message) (commit_ok : Bool) :
    TopicData × CommitResult × List Event :=
  let td1 := td.wait_ack message.id
  if commit_ok then (td1, CommitResult.committed, []) else (td1, CommitResult.commitFailed, [])

/-- The committed log entries the applier translates into TopicData mutations
(spec §4.7), plus the local `send_message` action. -/
inductive TopicOp
  | epOnline (endpoint : EndpointAddr) (interests : List Interest) (host : NodeId)
      (now : TimestampSec)
  | epOffline (endpoint : EndpointAddr)
  | updateEpInterest (endpoint : EndpointAddr) (interests : List Interest)
  | loadEpSync (infos : List EpInfo)
  | delegateMessage (hEp hMid : HashFn) (message : Message)
  | messageStateUpdate (update : MessageStateUpdate)
  | sendMessage (message : Message) (commit_ok : Bool)

def applyOp (op : TopicOp) (td : TopicData) : TopicData :=
  match op with
  | .epOnline e ints host now => (td.ep_online e ints host now).1
  | .epOffline e => td.ep_offline e
  | .updateEpInterest e ints => td.update_ep_interest e ints
  | .loadEpSync infos => td.load_ep_sync infos
  | .delegateMessage hEp hMid m =>
    match td.hold_new_message hEp hMid m with
    | .ok r => r.1
    | .error _ => td
  | .messageStateUpdate u => (td.update_and_flush u).1
  | .sendMessage m ok => (td.send_message m ok).1

/-- The recipient set the admission tail of `hold_new_message` receives, per
target kind: the subject union for Durable and Online, the consistent-hash
singleton for Push, nothing for Available. -/
def effectiveRecipients (hEp hMid : HashFn) (td : TopicData) (m : Message) :
    Option (List EndpointAddr) :=
  match m.header.target_kind with
  | .available => none
  | .durable => some (td.collect_addr_by_subjects m.header.subjects)
  | .online => some (td.collect_addr_by_subjects m.header.subjects)
  | .push =>
    (pushSelect hEp hMid (td.collect_addr_by_subjects m.header.subjects) m.id).map
      (fun ep => [ep])

/-- The guard of the overflow block (topic.rs lines 524-527): an overflow
configuration exists and the queue has reached its size. -/
def overflowTriggered (td : TopicData) : Bool :=
  match td.config.overflow_config with
  | some oc => decide (oc.size ≤ td.queue.len)
  | none => false

/-- Model-level well-formedness of the split queue representation: every id of
the FIFO order has a hold entry (in the source both live in one container). -/
def queueConsistent (q : MessageQueue) : Bool :=
  q.order.all (fun mid => (alookup q.hold_messages mid).isSome)

/-- The guard of `load_ep_sync`'s skip branch: a local record exists and is
strictly later than the incoming one. -/
def localStrictlyNewer (td : TopicData) (info : EpInfo) : Bool :=
  match alookup td.ep_latest_active info.addr with
  | some t => decide (info.latest_active < t)
  | none => false

/-- The complement used by the overwrite branch: no local record, or a local
record no later than the incoming one. -/
def localNotNewer (td : TopicData) (info : EpInfo) : Bool :=
  match alookup td.ep_latest_active info.addr with
  | some t => decide (t ≤ info.latest_active)
  | none => true

/-- The set of interests the inverse map holds for one endpoint. -/
def interestsOf (m : InterestMap) (ep : EndpointAddr) : List Interest :=
  (alookup m.raw ep).getD []

/-- The snapshot queue order the spec promises: non-decreasing admission
times. -/
def timeSorted : List DurableMessage → Bool
  | [] => true
  | [_] => true
  | a :: b :: rest => decide (a.time ≤ b.time) && timeSorted (b :: rest)

/-- Message ids are snowflake-unique, so an already-admitted id never equals
the id of a newly delegated message. -/
def opAdmitsFresh (op : TopicOp) (mid : MessageId) : Prop :=
  match op with
  | .delegateMessage _ _ m => mid ≠ m.id
  | _ => True

/-- Modelled from the spec (util.rs is not under src/): a concrete 64-bit
hash stand-in — truncation to 64 bits.  Like every 64-bit hash of 128-bit
endpoint addresses it has collisions. -/
def hash64m : HashFn :=
  fun n => n % 18446744073709551616

/- Concrete fixtures used by counterexamples and witnesses. -/

def sInterest : Interest := [InterestAtom.seg "s"]

def subjS : Subject := ["s"]

def cfgPlain : TopicConfig := ⟨"t", false, none⟩

def cfgDrop : TopicConfig := ⟨"t", false, some ⟨2, TopicOverflowPolicy.dropOld⟩⟩

def imap2 : InterestMap := ⟨[(10, [sInterest]), (20, [sInterest])]⟩

def hm1F : HoldMessage :=
  ⟨⟨1, ⟨MessageTargetKind.durable, [subjS], MessageAckExpectKind.processed⟩⟩,
   ⟨MessageAckExpectKind.processed, [(10, MessageStatusKind.unsent)]⟩, 0⟩

def hm2F : HoldMessage :=
  ⟨⟨2, ⟨MessageTargetKind.durable, [subjS], MessageAckExpectKind.processed⟩⟩,
   ⟨MessageAckExpectKind.processed, [(10, MessageStatusKind.unsent)]⟩, 1⟩

/-- Replica state whose hold map iterates in admission order. -/
def tdS1 : TopicData :=
  ⟨cfgPlain, [], ⟨[]⟩, [], ⟨2, [1, 2], [(1, hm1F), (2, hm2F)], []⟩⟩

/-- The same replicated content with the opposite hold-map iteration order. -/
def tdS2 : TopicData :=
  ⟨cfgPlain, [], ⟨[]⟩, [], ⟨2, [1, 2], [(2, hm2F), (1, hm1F)], []⟩⟩

def tdEmpty : TopicData :=
  ⟨cfgPlain, [], ⟨[]⟩, [], ⟨0, [], [], []⟩⟩

/-- Empty topic with a waiter registered under id 99. -/
def tdWait99 : TopicData :=
  ⟨cfgPlain, [], ⟨[]⟩, [], ⟨0, [], [], [99]⟩⟩

def mDur99 : Message :=
  ⟨99, ⟨MessageTargetKind.durable, [subjS], MessageAckExpectKind.processed⟩⟩

def mPush99 : Message :=
  ⟨99, ⟨MessageTargetKind.push, [subjS], MessageAckExpectKind.processed⟩⟩

def mAvail99 : Message :=
  ⟨99, ⟨MessageTargetKind.available, [subjS], MessageAckExpectKind.processed⟩⟩

/-- A 128-bit endpoint address that collides with address 5 under the 64-bit
hash. -/
def epBig : EndpointAddr := 18446744073709551621

/-- Full queue fixture for the overflow scenarios (spec §8 scenario 2). -/
def qFull : MessageQueue :=
  ⟨2, [1, 2], [(1, hm1F), (2, hm2F)], [1, 2, 3]⟩

def tdDrop : TopicData :=
  ⟨cfgDrop, [(10, 1), (20, 2)], imap2, [(10, 5), (20, 5)], qFull⟩

def mDur3 : Message :=
  ⟨3, ⟨MessageTargetKind.durable, [subjS], MessageAckExpectKind.processed⟩⟩

/-- An admitted durable message with an empty status map (no endpoint matched
at admission time), spec §8 scenario 3. -/
def hmL : HoldMessage :=
  ⟨⟨7, ⟨MessageTargetKind.durable, [subjS], MessageAckExpectKind.processed⟩⟩,
   ⟨MessageAckExpectKind.processed, []⟩, 0⟩

def tdLate : TopicData :=
  ⟨cfgPlain, [], ⟨[]⟩, [], ⟨1, [7], [(7, hmL)], []⟩⟩

/-- The extension `ep_online 10 [s]` produces on `hmL`. -/
def hmLExt : HoldMessage :=
  ⟨⟨7, ⟨MessageTargetKind.durable, [subjS], MessageAckExpectKind.processed⟩⟩,
   ⟨MessageAckExpectKind.processed, [(10, MessageStatusKind.unsent)]⟩, 0⟩

/-- Local endpoint row with `latest_active = 5`. -/
def tdTie : TopicData :=
  ⟨cfgPlain, [(7, 1)], ⟨[]⟩, [(7, 5)], ⟨0, [], [], []⟩⟩

/-- Remote record for the same endpoint with the same timestamp but another
host. -/
def infoTie : EpInfo := ⟨7, 2, [], 5⟩

/-- Local endpoint row strictly later than `infoTie`. -/
def tdNewer : TopicData :=
  ⟨cfgPlain, [(7, 1)], ⟨[]⟩, [(7, 9)], ⟨0, [], [], []⟩⟩

def mSend42 : Message :=
  ⟨42, ⟨MessageTargetKind.durable, [subjS], MessageAckExpectKind.noAck⟩⟩

def td10 : TopicData :=
  ⟨cfgPlain, [(10, 1)], ⟨[(10, [sInterest])]⟩, [(10, 5)], ⟨0, [], [], []⟩⟩

/- Association-list lemmas. -/

theorem alookup_append_left {β : Type} {l1 l2 : List (Nat × β)} {k : Nat} {v : β}
    (h : alookup l1 k = some v) : alookup (l1 ++ l2) k = some v := by
  induction l1 with
  | nil => simp [alookup] at h
  | cons p rest ih =>
    by_cases hpk : p.1 = k
    · simpa [alookup, hpk] using h
    · rw [List.cons_append, alookup, if_neg hpk]
      rw [alookup, if_neg hpk] at h
      exact ih h

theorem alookup_append_none {β : Type} {l1 l2 : List (Nat × β)} {k : Nat}
    (h : alookup l1 k = none) : alookup (l1 ++ l2) k = alookup l2 k := by
  induction l1 with
  | nil => simp [alookup]
  | cons p rest ih =>
    by_cases hpk : p.1 = k
    · simp [alookup, hpk] at h
    · rw [List.cons_append, alookup, if_neg hpk]
      rw [alookup, if_neg hpk] at h
      exact ih h

theorem alookup_ainsert_self {β : Type} (l : List (Nat × β)) (k : Nat) (v : β) :
    alookup (ainsert l k v) k = some v := by
  induction l with
  | nil => simp [ainsert, alookup]
  | cons p rest ih =>
    by_cases hpk : p.1 = k
    · simp [ainsert, hpk, alookup]
    · simp [ainsert, hpk, alookup, ih]

theorem alookup_ainsert_ne {β : Type} (l : List (Nat × β)) (k k' : Nat) (v : β)
    (h : k' ≠ k) : alookup (ainsert l k v) k' = alookup l k' := by
  induction l with
  | nil =>
    simp only [ainsert, alookup]
    rw [if_neg (by omega)]
  | cons p rest ih =>
    by_cases hpk : p.1 = k
    · simp only [ainsert, if_pos hpk, alookup]
      have h1 : ¬ (k = k') := by omega
      have h2 : ¬ (p.1 = k') := by omega
      rw [if_neg h1, if_neg h2]
    · simp only [ainsert, if_neg hpk, alookup]
      by_cases hpk' : p.1 = k'
      · rw [if_pos hpk', if_pos hpk']
      · rw [if_neg hpk', if_neg hpk', ih]

theorem alookup_aerase {β : Type} (l : List (Nat × β)) (k k' : Nat) :
    alookup (aerase l k) k' = if k' = k then none else alookup l k' := by
  induction l with
  | nil => simp [aerase, alookup]
  | cons p rest ih =>
    by_cases hpk : p.1 = k
    · have : aerase (p :: rest) k = aerase rest k := by
        simp [aerase, List.filter, hpk]
      rw [this, ih]
      by_cases hk : k' = k
      · simp [hk]
      · rw [if_neg hk, if_neg hk, alookup, if_neg]
        omega
    · have : aerase (p :: rest) k = p :: aerase rest k := by
        simp [aerase, List.filter, hpk]
      rw [this]
      by_cases hpk' : p.1 = k'
      · rw [alookup, if_pos hpk', if_neg, alookup, if_pos hpk']
        omega
      · rw [alookup, if_neg hpk', ih, alookup, if_neg hpk']

theorem alookup_aerase_some {β : Type} {l : List (Nat × β)} {k k' : Nat} {v : β}
    (h : alookup (aerase l k) k' = some v) : alookup l k' = some v := by
  rw [alookup_aerase] at h
  by_cases hk : k' = k
  · rw [if_pos hk] at h
    exact absurd h (by simp)
  · rwa [if_neg hk] at h

theorem alookup_mem {β : Type} {l : List (Nat × β)} {k : Nat} {v : β}
    (h : alookup l k = some v) : (k, v) ∈ l := by
  induction l with
  | nil => simp [alookup] at h
  | cons p rest ih =>
    by_cases hpk : p.1 = k
    · rw [alookup, if_pos hpk] at h
      obtain ⟨p1, p2⟩ := p
      have hk : p1 = k := hpk
      have hv : p2 = v := by simpa using h
      subst hk
      subst hv
      exact List.mem_cons_self _ _
    · rw [alookup, if_neg hpk] at h
      exact List.mem_cons_of_mem _ (ih h)

/- Flush and update lemmas. -/

theorem flushAux_lookup {clock : TimestampSec} (ord : List MessageId) :
    ∀ (hold : List (MessageId × HoldMessage)) (waiting : List MessageId)
      (mid : MessageId) (hm' : HoldMessage),
      alookup (flushAux clock ord hold waiting).1.hold_messages mid = some hm' →
      alookup hold mid = some hm' := by
  induction ord with
  | nil =>
    intro hold waiting mid hm' h
    simpa [flushAux] using h
  | cons m0 rest ih =>
    intro hold waiting mid hm' h
    simp only [flushAux] at h
    split at h
    · exact h
    · split at h
      · exact alookup_aerase_some (ih _ _ _ _ h)
      · exact h

theorem flushAux_no_err {clock : TimestampSec} (ord : List MessageId) :
    ∀ (hold : List (MessageId × HoldMessage)) (waiting : List MessageId)
      (mid : MessageId) (e : WaitAckErrorException),
      (mid, SendResult.err e) ∉ (flushAux clock ord hold waiting).2 := by
  induction ord with
  | nil =>
    intro hold waiting mid e
    simp [flushAux]
  | cons m0 rest ih =>
    intro hold waiting mid e
    simp only [flushAux]
    split
    · simp
    · split
      · intro hmem
        rcases List.mem_append.mp hmem with h1 | h2
        · split at h1 <;> simp at h1
        · exact ih _ _ _ _ h2
      · simp

theorem uafAfter_lookup {td : TopicData} {q1 : MessageQueue} {mid0 mid : MessageId}
    {hm' : HoldMessage}
    (h : alookup (uafAfter td q1 mid0).1.queue.hold_messages mid = some hm') :
    alookup q1.hold_messages mid = some hm' := by
  unfold uafAfter at h
  split at h
  · exact flushAux_lookup _ _ _ _ _ h
  · exact h

theorem update_and_flush_empty_lookup {td : TopicData} {i mid : MessageId} {hm' : HoldMessage}
    (h : alookup ((td.update_and_flush (MessageStateUpdate.new_empty i)).1.queue.hold_messages)
      mid = some hm') :
    alookup td.queue.hold_messages mid = some hm' := by
  unfold TopicData.update_and_flush at h
  simp only [MessageStateUpdate.new_empty, List.foldl_nil] at h
  exact uafAfter_lookup h

theorem uafAfter_no_err (td : TopicData) (q1 : MessageQueue) (mid0 mid : MessageId)
    (e : WaitAckErrorException) :
    (mid, SendResult.err e) ∉ (uafAfter td q1 mid0).2 := by
  unfold uafAfter
  split
  · exact flushAux_no_err _ _ _ _ _
  · simp

theorem update_and_flush_no_err (td : TopicData) (u : MessageStateUpdate)
    (mid : MessageId) (e : WaitAckErrorException) :
    (mid, SendResult.err e) ∉ (td.update_and_flush u).2 := by
  unfold TopicData.update_and_flush
  exact uafAfter_no_err _ _ _ _ _

theorem akeys_status_map (l : List (EndpointAddr × MessageStatusKind)) (from_ep : EndpointAddr)
    (status : MessageStatusKind) :
    akeys (l.map (fun p => if p.1 = from_ep ∧ p.2.rank < status.rank then (p.1, status) else p)) =
      akeys l := by
  unfold akeys
  rw [List.map_map]
  apply List.map_congr_left
  intro p _
  by_cases hc : p.1 = from_ep ∧ p.2.rank < status.rank
  · simp [hc]
  · simp [hc]

theorem akeys_updateHoldStatus (hm : HoldMessage) (from_ep : EndpointAddr)
    (status : MessageStatusKind) :
    akeys (updateHoldStatus hm from_ep status).wait_ack.status = akeys hm.wait_ack.status := by
  unfold updateHoldStatus
  exact akeys_status_map _ _ _

theorem alookup_map_update (mid0 mid : MessageId) (from_ep : EndpointAddr)
    (status : MessageStatusKind) (l : List (MessageId × HoldMessage)) :
    alookup
        (l.map (fun p => if p.1 = mid0 then (p.1, updateHoldStatus p.2 from_ep status) else p))
        mid =
      (alookup l mid).map
        (fun hm => if mid = mid0 then updateHoldStatus hm from_ep status else hm) := by
  induction l with
  | nil => rfl
  | cons p rest ih =>
    rw [List.map_cons]
    by_cases hp0 : p.1 = mid0
    · rw [if_pos hp0]
      by_cases hpm : p.1 = mid
      · have e : mid = mid0 := by rw [← hpm]; exact hp0
        simp [alookup, hpm, e]
      · simp only [alookup]
        rw [if_neg hpm, if_neg hpm, ih]
    · rw [if_neg hp0]
      by_cases hpm : p.1 = mid
      · have e : ¬ (mid = mid0) := by rw [← hpm]; exact hp0
        simp [alookup, hpm, e]
      · simp only [alookup]
        rw [if_neg hpm, if_neg hpm, ih]

theorem alookup_update_ack (q : MessageQueue) (mid0 : MessageId) (from_ep : EndpointAddr)
    (status : MessageStatusKind) (mid : MessageId) :
    alookup (q.update_ack mid0 from_ep status).hold_messages mid =
      (alookup q.hold_messages mid).map
        (fun hm => if mid = mid0 then updateHoldStatus hm from_ep status else hm) := by
  unfold MessageQueue.update_ack
  exact alookup_map_update _ _ _ _ _

theorem alookup_foldl_update_ack (us : List (EndpointAddr × MessageStatusKind)) :
    ∀ (q : MessageQueue) (mid0 mid : MessageId) (hm' : HoldMessage),
      alookup ((us.foldl (fun q p => q.update_ack mid0 p.1 p.2) q).hold_messages) mid =
        some hm' →
      ∃ hm0, alookup q.hold_messages mid = some hm0 ∧
        akeys hm'.wait_ack.status = akeys hm0.wait_ack.status := by
  induction us with
  | nil =>
    intro q mid0 mid hm' h
    exact ⟨hm', h, rfl⟩
  | cons u rest ih =>
    intro q mid0 mid hm' h
    simp only [List.foldl_cons] at h
    obtain ⟨hm1, h1, hk1⟩ := ih _ _ _ _ h
    rw [alookup_update_ack] at h1
    cases halo : alookup q.hold_messages mid with
    | none =>
      rw [halo] at h1
      simp at h1
    | some hm0 =>
      rw [halo] at h1
      by_cases hmm : mid = mid0
      · have hv : hm1 = updateHoldStatus hm0 u.1 u.2 := by
          simpa [hmm] using h1.symm
        refine ⟨hm0, rfl, ?_⟩
        rw [hk1, hv, akeys_updateHoldStatus]
      · have hv : hm1 = hm0 := by
          simpa [hmm] using h1.symm
        refine ⟨hm0, rfl, ?_⟩
        rw [hk1, hv]

theorem update_and_flush_keys {td : TopicData} {u : MessageStateUpdate} {mid : MessageId}
    {hm' : HoldMessage}
    (h : alookup (td.update_and_flush u).1.queue.hold_messages mid = some hm') :
    ∃ hm0, alookup td.queue.hold_messages mid = some hm0 ∧
      akeys hm'.wait_ack.status = akeys hm0.wait_ack.status := by
  unfold TopicData.update_and_flush at h
  exact alookup_foldl_update_ack _ _ _ _ _ (uafAfter_lookup h)

theorem uafAfter_imap (td : TopicData) (q1 : MessageQueue) (mid0 : MessageId) :
    (uafAfter td q1 mid0).1.ep_interest_map = td.ep_interest_map := by
  unfold uafAfter
  split <;> rfl

theorem update_and_flush_imap (td : TopicData) (u : MessageStateUpdate) :
    (td.update_and_flush u).1.ep_interest_map = td.ep_interest_map := by
  unfold TopicData.update_and_flush
  exact uafAfter_imap _ _ _

theorem loadEpSyncStep_queue (td : TopicData) (ep : EpInfo) :
    (loadEpSyncStep td ep).queue = td.queue := by
  unfold loadEpSyncStep loadEpSyncApply
  split
  · split <;> rfl
  · rfl

theorem load_ep_sync_queue (infos : List EpInfo) :
    ∀ td : TopicData, (td.load_ep_sync infos).queue = td.queue := by
  induction infos with
  | nil => intro td; rfl
  | cons i rest ih =>
    intro td
    unfold TopicData.load_ep_sync
    simp only [List.foldl_cons]
    have := ih (loadEpSyncStep td i)
    unfold TopicData.load_ep_sync at this
    rw [this, loadEpSyncStep_queue]

theorem foldl_repoll_lookup (ids : List MessageId) :
    ∀ (acc : TopicData × List Event) (mid : MessageId) (hm' : HoldMessage),
      alookup ((ids.foldl
        (fun acc id =>
          ((acc.1.update_and_flush (MessageStateUpdate.new_empty id)).1,
            acc.2 ++ (acc.1.update_and_flush (MessageStateUpdate.new_empty id)).2))
        acc).1.queue.hold_messages) mid = some hm' →
      alookup acc.1.queue.hold_messages mid = some hm' := by
  induction ids with
  | nil =>
    intro acc mid hm' h
    exact h
  | cons i rest ih =>
    intro acc mid hm' h
    simp only [List.foldl_cons] at h
    exact update_and_flush_empty_lookup
      (ih ((acc.1.update_and_flush (MessageStateUpdate.new_empty i)).1,
        acc.2 ++ (acc.1.update_and_flush (MessageStateUpdate.new_empty i)).2) mid hm' h)

theorem repollFold_lookup {start : TopicData} {ids : List MessageId} {mid : MessageId}
    {hm' : HoldMessage}
    (h : alookup (repollFold start ids).1.queue.hold_messages mid = some hm') :
    alookup start.queue.hold_messages mid = some hm' := by
  unfold repollFold at h
  exact foldl_repoll_lookup _ _ _ _ h

theorem foldl_repoll_imap (ids : List MessageId) :
    ∀ (acc : TopicData × List Event),
      ((ids.foldl
        (fun acc id =>
          ((acc.1.update_and_flush (MessageStateUpdate.new_empty id)).1,
            acc.2 ++ (acc.1.update_and_flush (MessageStateUpdate.new_empty id)).2))
        acc).1.ep_interest_map) = acc.1.ep_interest_map := by
  induction ids with
  | nil => intro acc; rfl
  | cons i rest ih =>
    intro acc
    simp only [List.foldl_cons]
    rw [ih]
    exact update_and_flush_imap _ _

theorem repollFold_imap (start : TopicData) (ids : List MessageId) :
    (repollFold start ids).1.ep_interest_map = start.ep_interest_map := by
  unfold repollFold
  exact foldl_repoll_imap _ _

/- Interest-map monotonicity lemmas. -/

theorem interestsOf_insert_mono (m : InterestMap) (i0 : Interest) (e0 e : EndpointAddr)
    (i : Interest) (h : i ∈ interestsOf m e) : i ∈ interestsOf (m.insert i0 e0) e := by
  unfold InterestMap.insert
  split
  · rename_i ints halo
    unfold interestsOf at h ⊢
    by_cases hee : e = e0
    · subst hee
      rw [halo] at h
      simp only [Option.getD_some] at h
      rw [alookup_ainsert_self]
      simp only [Option.getD_some]
      by_cases hi0 : i0 ∈ ints
      · rw [if_pos hi0]
        exact h
      · rw [if_neg hi0]
        exact List.mem_append_left _ h
    · rw [alookup_ainsert_ne _ _ _ _ hee]
      exact h
  · rename_i halo
    unfold interestsOf at h ⊢
    cases halo2 : alookup m.raw e with
    | some v =>
      rw [alookup_append_left halo2]
      rw [halo2] at h
      exact h
    | none =>
      rw [halo2] at h
      simp at h

theorem interestsOf_foldl_insert_mono (ints : List Interest) :
    ∀ (m : InterestMap) (e0 e : EndpointAddr) (i : Interest),
      i ∈ interestsOf m e →
      i ∈ interestsOf (ints.foldl (fun m2 i2 => m2.insert i2 e0) m) e := by
  induction ints with
  | nil =>
    intro m e0 e i h
    exact h
  | cons i1 rest ih =>
    intro m e0 e i h
    simp only [List.foldl_cons]
    exact ih _ _ _ _ (interestsOf_insert_mono _ _ _ _ _ h)

theorem loadEpSyncStep_interest_mono (td : TopicData) (info : EpInfo) (e : EndpointAddr)
    (i : Interest) (h : i ∈ interestsOf td.ep_interest_map e) :
    i ∈ interestsOf (loadEpSyncStep td info).ep_interest_map e := by
  unfold loadEpSyncStep loadEpSyncApply
  split
  · split
    · exact h
    · exact interestsOf_foldl_insert_mono _ _ _ _ _ h
  · exact interestsOf_foldl_insert_mono _ _ _ _ _ h

theorem load_ep_sync_interest_mono (infos : List EpInfo) :
    ∀ (td : TopicData) (e : EndpointAddr) (i : Interest),
      i ∈ interestsOf td.ep_interest_map e →
      i ∈ interestsOf (td.load_ep_sync infos).ep_interest_map e := by
  induction infos with
  | nil =>
    intro td e i h
    exact h
  | cons info rest ih =>
    intro td e i h
    unfold TopicData.load_ep_sync
    simp only [List.foldl_cons]
    have h2 := ih (loadEpSyncStep td info) e i (loadEpSyncStep_interest_mono _ _ _ _ h)
    unfold TopicData.load_ep_sync at h2
    exact h2

/- Sorted-permutation uniqueness, for the consistent-hash ring. -/

theorem sorted_perm_antisymm_eq {α : Type} {r : α → α → Prop} (l1 : List α) :
    ∀ (l2 : List α), l1.Perm l2 → l1.Sorted r → l2.Sorted r →
      (∀ a, a ∈ l1 → ∀ b, b ∈ l1 → r a b → r b a → a = b) → l1 = l2 := by
  induction l1 with
  | nil =>
    intro l2 hp _ _ _
    exact (hp.symm.eq_nil).symm
  | cons a t1 ih =>
    intro l2 hp hs1 hs2 hanti
    cases l2 with
    | nil =>
      have hnil := hp.eq_nil
      simp at hnil
    | cons b t2 =>
      by_cases hab : a = b
      · subst hab
        have hp' := hp.cons_inv
        have ht := ih t2 hp' hs1.of_cons hs2.of_cons
          (fun x hx y hy => hanti x (List.mem_cons_of_mem _ hx) y (List.mem_cons_of_mem _ hy))
        rw [ht]
      · exfalso
        have ha2 : a ∈ b :: t2 := hp.mem_iff.mp (List.mem_cons_self a t1)
        have hb1 : b ∈ a :: t1 := hp.symm.mem_iff.mp (List.mem_cons_self b t2)
        have hb1' : b ∈ t1 := by
          rcases List.mem_cons.mp hb1 with heq | hmem
          · exact absurd heq.symm hab
          · exact hmem
        have ha2' : a ∈ t2 := by
          rcases List.mem_cons.mp ha2 with heq | hmem
          · exact absurd heq hab
          · exact hmem
        have hrab : r a b := (List.sorted_cons.mp hs1).1 b hb1'
        have hrba : r b a := (List.sorted_cons.mp hs2).1 a ha2'
        exact hab (hanti a (List.mem_cons_self a t1) b hb1 hrab hrba)

theorem hashRing_perm_eq (hEp : HashFn) (l1 l2 : List EndpointAddr)
    (hp : l1.Perm l2)
    (hinj : ∀ a, a ∈ l1 → ∀ b, b ∈ l1 → hEp a = hEp b → a = b) :
    hashRing hEp l1 = hashRing hEp l2 := by
  unfold hashRing
  apply sorted_perm_antisymm_eq
  · exact (List.perm_insertionSort _ _).trans ((hp.map _).trans (List.perm_insertionSort _ _).symm)
  · exact List.sorted_insertionSort _ _
  · exact List.sorted_insertionSort _ _
  · intro p hpmem q hqmem hpq hqp
    have hp1 : p ∈ l1.map (fun ep => (hEp ep, ep)) :=
      (List.perm_insertionSort _ _).mem_iff.mp hpmem
    have hq1 : q ∈ l1.map (fun ep => (hEp ep, ep)) :=
      (List.perm_insertionSort _ _).mem_iff.mp hqmem
    obtain ⟨a, ha, rfl⟩ := List.mem_map.mp hp1
    obtain ⟨b, hb, rfl⟩ := List.mem_map.mp hq1
    have hhab : hEp a = hEp b := Nat.le_antisymm hpq hqp
    have hab : a = b := hinj a ha b hb hhab
    subst hab
    rfl

theorem pushSelect_perm (hEp hMid : HashFn) (l1 l2 : List EndpointAddr) (mid : MessageId)
    (hp : l1.Perm l2)
    (hinj : ∀ a, a ∈ l1 → ∀ b, b ∈ l1 → hEp a = hEp b → a = b) :
    pushSelect hEp hMid l1 mid = pushSelect hEp hMid l2 mid := by
  unfold pushSelect
  rw [hashRing_perm_eq hEp l1 l2 hp hinj]

/-- C1 counterexample: two replicas whose `TopicData` agree as replicated
content — the hold maps hold the same entries (a permutation, which is what
`HashMap` equality means) and every other field is equal — still produce
different snapshots, and one emitted queue is not sorted by admission time. -/
theorem C1_snapshot_counterexample :
    tdS1.queue.hold_messages.Perm tdS2.queue.hold_messages ∧
    tdS1.config = tdS2.config ∧
    tdS1.ep_routing_table = tdS2.ep_routing_table ∧
    tdS1.ep_interest_map = tdS2.ep_interest_map ∧
    tdS1.ep_latest_active = tdS2.ep_latest_active ∧
    tdS1.queue.order = tdS2.queue.order ∧
    tdS1.snapshot ≠ tdS2.snapshot ∧
    timeSorted tdS1.snapshot.queue = true ∧
    timeSorted tdS2.snapshot.queue = false := by
  decide

/-- C1 (amended): `snapshot()` is a deterministic function of the `TopicData`
value including the hold map's iteration order, and it emits the queue as the
durable encodings in that iteration order, without sorting by admission
time.  Replicas therefore agree byte-for-byte only when their hold-map
iteration orders also agree; `from_snapshot` compensates by re-sorting by
time on load. -/
theorem C1_snapshot_deterministic (td1 td2 : TopicData)
    (hc : td1.config = td2.config)
    (hr : td1.ep_routing_table = td2.ep_routing_table)
    (hi : td1.ep_interest_map = td2.ep_interest_map)
    (ha : td1.ep_latest_active = td2.ep_latest_active)
    (hq : td1.queue.hold_messages = td2.queue.hold_messages) :
    td1.snapshot = td2.snapshot ∧
    td1.snapshot.queue = td1.queue.hold_messages.map (fun p => p.2.as_durable) := by
  constructor
  · unfold TopicData.snapshot
    rw [hc, hr, hi, ha, hq]
  · rfl

/-- C1 witness for the amended theorem at a concrete replica pair. -/
theorem C1_snapshot_deterministic_witness :
    tdS1.snapshot = tdS1.snapshot ∧
    tdS1.snapshot.queue = tdS1.queue.hold_messages.map (fun p => p.2.as_durable) :=
  C1_snapshot_deterministic tdS1 tdS1 rfl rfl rfl rfl rfl

/-- C2: applying the same `EndpointOnline` entry under two different ambient
wall-clock values stores the two different clock values — `ep_online` reads
`TimestampSec::now()` at apply time instead of a timestamp carried by the
entry (the entry carries none), so replicas applying the same entry at
different instants diverge. -/
theorem C2_ep_online_wall_clock :
    alookup ((tdEmpty.ep_online 7 [] 3 100).1.ep_latest_active) 7 = some 100 ∧
    alookup ((tdEmpty.ep_online 7 [] 3 200).1.ep_latest_active) 7 = some 200 ∧
    (tdEmpty.ep_online 7 [] 3 100).1 ≠ (tdEmpty.ep_online 7 [] 3 200).1 := by
  decide

/-- C4: admitting a message of target kind `Available` does not resolve the
waiter with an `Unsupported` error — the code hits `unimplemented!` and
panics. -/
theorem C4_available_unimplemented :
    tdWait99.hold_new_message hash64m hash64m mAvail99 =
      Except.error (RustPanic.unimplementedKind "available kind is not supported") :=
  rfl

/-- C8 counterexample: on an exact `latest_active` tie the remote record
overwrites the local row — here the routing host changes from 1 to 2 — so
the local copy is not retained on ties. -/
theorem C8_tie_counterexample :
    alookup tdTie.ep_latest_active infoTie.addr = some infoTie.latest_active ∧
    alookup tdTie.ep_routing_table infoTie.addr = some 1 ∧
    infoTie.host = 2 ∧
    alookup ((tdTie.load_ep_sync [infoTie]).ep_routing_table) infoTie.addr = some 2 := by
  decide

/-- C8 (amended): `load_ep_sync` keeps the local rows iff the local
`latest_active` is strictly later than the incoming one; otherwise — on a
strictly later incoming timestamp, on an exact tie, and when no local record
exists — the remote activity and routing rows are stored (and the remote
interests added). -/
theorem C8_load_ep_sync_merge (td : TopicData) (info : EpInfo) :
    td.load_ep_sync [info] = loadEpSyncStep td info ∧
    (localStrictlyNewer td info = true → loadEpSyncStep td info = td) ∧
    (localNotNewer td info = true →
      loadEpSyncStep td info = loadEpSyncApply td info ∧
      alookup (loadEpSyncApply td info).ep_latest_active info.addr = some info.latest_active ∧
      alookup (loadEpSyncApply td info).ep_routing_table info.addr = some info.host) := by
  refine ⟨rfl, ?_, ?_⟩
  · intro h
    unfold localStrictlyNewer at h
    unfold loadEpSyncStep
    split
    · rename_i t halo
      rw [halo] at h
      simp only [decide_eq_true_eq] at h
      rw [if_pos h]
    · rename_i halo
      rw [halo] at h
      simp at h
  · intro h
    refine ⟨?_, alookup_ainsert_self _ _ _, alookup_ainsert_self _ _ _⟩
    unfold localNotNewer at h
    unfold loadEpSyncStep
    split
    · rename_i t halo
      rw [halo] at h
      simp only [decide_eq_true_eq] at h
      rw [if_neg (Nat.not_lt.mpr h)]
    · rfl

/-- C8 witness: the strictly-newer local row survives, and the tied local row
is overwritten. -/
theorem C8_load_ep_sync_merge_witness :
    loadEpSyncStep tdNewer infoTie = tdNewer ∧
    loadEpSyncStep tdTie infoTie = loadEpSyncApply tdTie infoTie :=
  ⟨(C8_load_ep_sync_merge tdNewer infoTie).2.1 (by decide),
   ((C8_load_ep_sync_merge tdTie infoTie).2.2 (by decide)).1⟩

/-- C9 counterexample: when the proposal fails to commit, `send_message`
returns the commit error to its caller but resolves nothing — the resolution
list is empty and the waiter registered under the message id is still in the
waiting map. -/
theorem C9_commit_failure_counterexample :
    (tdEmpty.send_message mSend42 false).2.1 = CommitResult.commitFailed ∧
    (tdEmpty.send_message mSend42 false).2.2 = [] ∧
    mSend42.id ∈ (tdEmpty.send_message mSend42 false).1.queue.waiting := by
  decide

/-- C9 (amended): `send_message` registers the waiter under `m.id` before the
proposal, and on commit failure it returns a commit-failed error to the
caller while the registered waiter stays in the waiting map, unresolved (no
resolution event is emitted on this path). -/
theorem C9_send_message_waiter (td : TopicData) (m : Message) (commit_ok : Bool) :
    (td.send_message m commit_ok).1 = td.wait_ack m.id ∧
    m.id ∈ (td.send_message m commit_ok).1.queue.waiting ∧
    (td.send_message m commit_ok).2.2 = [] ∧
    (commit_ok = false → (td.send_message m commit_ok).2.1 = CommitResult.commitFailed) := by
  unfold TopicData.send_message
  cases commit_ok
  · refine ⟨rfl, ?_, rfl, fun _ => rfl⟩
    unfold TopicData.wait_ack
    simp
  · refine ⟨rfl, ?_, rfl, fun h => by simp at h⟩
    unfold TopicData.wait_ack
    simp

/-- C9 witness at a concrete failed proposal. -/
theorem C9_send_message_waiter_witness :
    (tdEmpty.send_message mSend42 false).2.1 = CommitResult.commitFailed ∧
    mSend42.id ∈ (tdEmpty.send_message mSend42 false).1.queue.waiting :=
  ⟨(C9_send_message_waiter tdEmpty mSend42 false).2.2.2 rfl,
   (C9_send_message_waiter tdEmpty mSend42 false).2.1⟩

/-- C10: `ep_online` and `load_ep_sync` are additive on the interest index —
every interest an endpoint has before either call it still has afterwards;
neither operation removes an existing interest association. -/
theorem C10_interest_additivity (td : TopicData) (e : EndpointAddr) (i : Interest) :
    (∀ (endpoint : EndpointAddr) (ints : List Interest) (host : NodeId) (now : TimestampSec),
      i ∈ interestsOf td.ep_interest_map e →
      i ∈ interestsOf (td.ep_online endpoint ints host now).1.ep_interest_map e) ∧
    (∀ infos : List EpInfo,
      i ∈ interestsOf td.ep_interest_map e →
      i ∈ interestsOf (td.load_ep_sync infos).ep_interest_map e) := by
  constructor
  · intro endpoint ints host now h
    unfold TopicData.ep_online
    have h2 : i ∈ interestsOf
        (epOnlineTables td endpoint ints host now).ep_interest_map e :=
      interestsOf_foldl_insert_mono _ _ _ _ _ h
    rw [repollFold_imap]
    exact h2
  · intro infos h
    exact load_ep_sync_interest_mono _ _ _ _ h

/-- C10 witness: a previously registered interest survives a re-online with
no interests and a merge of a winning remote record. -/
theorem C10_interest_additivity_witness :
    sInterest ∈ interestsOf (td10.ep_online 20 [] 2 9).1.ep_interest_map 10 ∧
    sInterest ∈ interestsOf (td10.load_ep_sync [⟨20, 2, [], 9⟩]).ep_interest_map 10 :=
  ⟨(C10_interest_additivity td10 10 sInterest).1 20 [] 2 9 (by decide),
   (C10_interest_additivity td10 10 sInterest).2 [⟨20, 2, [], 9⟩] (by decide)⟩

/-- C3 counterexample: a Durable message whose recipient set is empty is not
rejected with `NoAvailableTarget`; it is admitted (the queue's admission
clock advances) and its waiter resolves with `Ok []` when it flushes. -/
theorem C3_empty_target_counterexample :
    tdWait99.collect_addr_by_subjects mDur99.header.subjects = [] ∧
    mDur99.header.target_kind = MessageTargetKind.durable ∧
    (tdWait99.hold_new_message hash64m hash64m mDur99).toOption.map (fun r => r.2) =
      some [(99, SendResult.ok [])] ∧
    (tdWait99.hold_new_message hash64m hash64m mDur99).toOption.map (fun r => r.1.queue.clock) =
      some 1 := by
  decide

/-- C3 (amended): only the Push branch treats an empty recipient set as
`NoAvailableTarget` (resolving a registered waiter and leaving the rest of
the state untouched); Durable and Online messages with an empty recipient
set are admitted with an empty status map, and no error is ever reported to
their waiter on this path. -/
theorem C3_empty_target_behavior (hEp hMid : HashFn) (td : TopicData) (m : Message)
    (hempty : td.collect_addr_by_subjects m.header.subjects = []) :
    (m.header.target_kind = MessageTargetKind.push →
      td.hold_new_message hEp hMid m =
        Except.ok
          ({ td with queue := { td.queue with
              waiting := (resolveWaiter td.queue.waiting m.id .noAvailableTarget).1 } },
            (resolveWaiter td.queue.waiting m.id .noAvailableTarget).2)) ∧
    ((m.header.target_kind = MessageTargetKind.durable ∨
      m.header.target_kind = MessageTargetKind.online) →
      overflowTriggered td = false →
      td.hold_new_message hEp hMid m =
        Except.ok (td.push_and_flush m ⟨m, WaitAck.new m.ack_kind [], 0⟩) ∧
      ∀ e, (m.id, SendResult.err e) ∉ (td.push_and_flush m ⟨m, WaitAck.new m.ack_kind [], 0⟩).2) := by
  obtain ⟨mid0, tk, subjs, ack⟩ := m
  dsimp only at hempty
  constructor
  · intro hk
    dsimp only at hk
    subst hk
    simp only [TopicData.hold_new_message]
    rw [hempty]
    rfl
  · intro hk hov
    have heq : td.hold_new_message hEp hMid ⟨mid0, tk, subjs, ack⟩ =
        td.admit_message ⟨mid0, tk, subjs, ack⟩ [] := by
      rcases hk with hk | hk
      · dsimp only at hk
        subst hk
        simp only [TopicData.hold_new_message]
        rw [hempty]
      · dsimp only at hk
        subst hk
        simp only [TopicData.hold_new_message]
        rw [hempty]
    constructor
    · rw [heq]
      simp only [TopicData.admit_message]
      unfold overflowTriggered at hov
      split
      · rename_i oc hoc
        rw [hoc] at hov
        simp only [decide_eq_false_iff_not] at hov
        rw [if_neg hov]
      · rfl
    · intro e
      exact update_and_flush_no_err _ _ _ _

/-- C3 witness: a Push message with no matching endpoint resolves its
registered waiter with `NoAvailableTarget` and only removes that waiter. -/
theorem C3_empty_target_behavior_witness :
    tdWait99.hold_new_message hash64m hash64m mPush99 =
      Except.ok
        ({ tdWait99 with queue := { tdWait99.queue with
            waiting := (resolveWaiter tdWait99.queue.waiting mPush99.id .noAvailableTarget).1 } },
          (resolveWaiter tdWait99.queue.waiting mPush99.id .noAvailableTarget).2) :=
  (C3_empty_target_behavior hash64m hash64m tdWait99 mPush99 (by decide)).1 rfl

/-- C5 counterexample: two hash-colliding endpoint addresses (any 64-bit hash
of 128-bit snowflake addresses has collisions — here truncation) make the
Push selection depend on the set-iteration order of the recipient set: the
same set presented in its two orders yields two different endpoints, so the
choice is not a function of `(m.id, R)` and ties are not broken by
endpoint-address order. -/
theorem C5_tie_break_counterexample :
    ([5, epBig] : List EndpointAddr).Perm [epBig, 5] ∧
    hash64m 5 = hash64m epBig ∧
    pushSelect hash64m hash64m [5, epBig] 0 = some 5 ∧
    pushSelect hash64m hash64m [epBig, 5] 0 = some epBig ∧
    (5 : EndpointAddr) ≠ epBig := by
  decide

/-- C5 (amended): the Push branch sorts the hash ring by `hash64(ep)` with a
stable sort (ties keep the pre-sort set-iteration order, not endpoint-address
order) and picks index `hash64(m.id) mod len`; the selected endpoint is a
deterministic function of `(m.id, R)` whenever `hash64` is injective on `R`,
and the admission continues with exactly the selected endpoint. -/
theorem C5_push_selection :
    (∀ (hEp : HashFn) (l : List EndpointAddr),
      (hashRing hEp l).Sorted ringLe ∧
      (hashRing hEp l).Perm (l.map (fun ep => (hEp ep, ep)))) ∧
    (∀ (hEp hMid : HashFn) (l1 l2 : List EndpointAddr) (mid : MessageId),
      l1.Perm l2 →
      (∀ a, a ∈ l1 → ∀ b, b ∈ l1 → hEp a = hEp b → a = b) →
      pushSelect hEp hMid l1 mid = pushSelect hEp hMid l2 mid) ∧
    (∀ (hEp hMid : HashFn) (td : TopicData) (m : Message) (ep : EndpointAddr),
      m.header.target_kind = MessageTargetKind.push →
      pushSelect hEp hMid (td.collect_addr_by_subjects m.header.subjects) m.id = some ep →
      td.hold_new_message hEp hMid m = td.admit_message m [ep]) := by
  refine ⟨?_, ?_, ?_⟩
  · intro hEp l
    exact ⟨List.sorted_insertionSort _ _, List.perm_insertionSort _ _⟩
  · intro hEp hMid l1 l2 mid hp hinj
    exact pushSelect_perm hEp hMid l1 l2 mid hp hinj
  · intro hEp hMid td m ep hk hsel
    obtain ⟨mid0, tk, subjs, ack⟩ := m
    dsimp only at hk hsel
    subst hk
    simp only [TopicData.hold_new_message]
    rw [hsel]

/-- C5 witness: determinism of the selection on a collision-free recipient
set presented in two orders, and the concrete admission equation for a Push
message. -/
theorem C5_push_selection_witness :
    pushSelect hash64m hash64m [10, 20] 3 = pushSelect hash64m hash64m [20, 10] 3 ∧
    tdDrop.hold_new_message hash64m hash64m mPush99 = tdDrop.admit_message mPush99 [20] :=
  ⟨C5_push_selection.2.1 hash64m hash64m [10, 20] [20, 10] 3 (by decide) (by decide),
   C5_push_selection.2.2 hash64m hash64m tdDrop mPush99 20 rfl (by decide)⟩

/-- The overflow block of the admission tail, isolated: with a configured
size the queue has reached, `RejectNew` returns without admitting (resolving
the incoming waiter with Overflow), and `DropOld` pops the head, resolves the
head's waiter with Overflow, and pushes the new hold message. -/
theorem admit_message_overflow (td : TopicData) (m : Message) (R : List EndpointAddr)
    (oc : TopicOverflowConfig)
    (hoc : td.config.overflow_config = some oc)
    (hsz : 1 ≤ oc.size)
    (hfull : oc.size ≤ td.queue.len)
    (hcons : queueConsistent td.queue = true) :
    (oc.policy = TopicOverflowPolicy.rejectNew →
      td.admit_message m R =
        Except.ok
          ({ td with queue := { td.queue with
              waiting := (resolveWaiter td.queue.waiting m.id .overflow).1 } },
            (resolveWaiter td.queue.waiting m.id .overflow).2)) ∧
    (oc.policy = TopicOverflowPolicy.dropOld →
      ∃ old q1, td.queue.pop = (some old, q1) ∧
        td.admit_message m R =
          Except.ok
            ((({ td with queue := { q1 with
                waiting := (resolveWaiter q1.waiting old.message.id .overflow).1 } }).push_and_flush
                m ⟨m, WaitAck.new m.ack_kind R, 0⟩).1,
              (resolveWaiter q1.waiting old.message.id .overflow).2 ++
              (({ td with queue := { q1 with
                waiting := (resolveWaiter q1.waiting old.message.id .overflow).1 } }).push_and_flush
                m ⟨m, WaitAck.new m.ack_kind R, 0⟩).2)) := by
  constructor
  · intro hpol
    obtain ⟨sz, pol⟩ := oc
    dsimp only at hpol hfull hsz
    subst hpol
    simp only [TopicData.admit_message]
    split
    · rename_i oc2 hoc2
      rw [hoc] at hoc2
      injection hoc2 with h3
      subst h3
      rw [if_pos hfull]
    · rename_i hoc2
      rw [hoc] at hoc2
      simp at hoc2
  · intro hpol
    obtain ⟨sz, pol⟩ := oc
    dsimp only at hpol hfull hsz
    subst hpol
    rcases ho : td.queue.order with _ | ⟨mid0, rest⟩
    · exfalso
      have hlen : td.queue.len = 0 := by
        unfold MessageQueue.len
        rw [ho]
        rfl
      rw [hlen] at hfull
      exact absurd (Nat.le_trans hsz hfull) (by simp)
    · have hsome : (alookup td.queue.hold_messages mid0).isSome = true := by
        unfold queueConsistent at hcons
        rw [ho, List.all_cons, Bool.and_eq_true] at hcons
        exact hcons.1
      rw [Option.isSome_iff_exists] at hsome
      obtain ⟨old, halo⟩ := hsome
      have hfst : td.queue.pop.1 = some old := by
        unfold MessageQueue.pop
        rw [ho]
        dsimp only
        exact halo
      have hpop : td.queue.pop = (some old, td.queue.pop.2) := by
        rw [← hfst]
      refine ⟨old, td.queue.pop.2, hpop, ?_⟩
      simp only [TopicData.admit_message]
      split
      · rename_i oc2 hoc2
        rw [hoc] at hoc2
        injection hoc2 with h3
        subst h3
        rw [if_pos hfull]
        rw [hpop]
      · rename_i hoc2
        rw [hoc] at hoc2
        simp at hoc2

/-- C6: with `overflow_config = Some{size, policy}` (size is non-zero) and
`len() ≥ size` before admission, `RejectNew` does not admit the new message
and resolves its waiter (if registered) with Overflow, leaving the queue
untouched, while `DropOld` pops the head, resolves the head's waiter with
Overflow, and then admits the new message. -/
theorem C6_overflow_policy (hEp hMid : HashFn) (td : TopicData) (m : Message)
    (oc : TopicOverflowConfig) (R : List EndpointAddr)
    (hoc : td.config.overflow_config = some oc)
    (hsz : 1 ≤ oc.size)
    (hfull : oc.size ≤ td.queue.len)
    (hR : effectiveRecipients hEp hMid td m = some R)
    (hcons : queueConsistent td.queue = true) :
    (oc.policy = TopicOverflowPolicy.rejectNew →
      td.hold_new_message hEp hMid m =
        Except.ok
          ({ td with queue := { td.queue with
              waiting := (resolveWaiter td.queue.waiting m.id .overflow).1 } },
            (resolveWaiter td.queue.waiting m.id .overflow).2)) ∧
    (oc.policy = TopicOverflowPolicy.dropOld →
      ∃ old q1, td.queue.pop = (some old, q1) ∧
        td.hold_new_message hEp hMid m =
          Except.ok
            ((({ td with queue := { q1 with
                waiting := (resolveWaiter q1.waiting old.message.id .overflow).1 } }).push_and_flush
                m ⟨m, WaitAck.new m.ack_kind R, 0⟩).1,
              (resolveWaiter q1.waiting old.message.id .overflow).2 ++
              (({ td with queue := { q1 with
                waiting := (resolveWaiter q1.waiting old.message.id .overflow).1 } }).push_and_flush
                m ⟨m, WaitAck.new m.ack_kind R, 0⟩).2)) := by
  have hmain : td.hold_new_message hEp hMid m = td.admit_message m R := by
    obtain ⟨mid0, tk, subjs, ack⟩ := m
    cases tk
    all_goals dsimp only [effectiveRecipients] at hR
    · injection hR with h2
      simp only [TopicData.hold_new_message]
      rw [h2]
    · injection hR with h2
      simp only [TopicData.hold_new_message]
      rw [h2]
    · exact absurd hR (by simp)
    · cases hsel : pushSelect hEp hMid (td.collect_addr_by_subjects subjs) mid0 with
      | none =>
        rw [hsel] at hR
        simp at hR
      | some ep =>
        rw [hsel] at hR
        have h2 : [ep] = R := by
          simpa using hR
        simp only [TopicData.hold_new_message, hsel]
        rw [h2]
  rw [hmain]
  exact admit_message_overflow td m R oc hoc hsz hfull hcons

/-- C6 witness: the DropOld scenario of the spec — a full queue `[m1, m2]` of
size 2; admitting `m3` pops `m1`, resolves its waiter with Overflow, and
admits `m3`. -/
theorem C6_overflow_policy_witness :
    ∃ old q1, tdDrop.queue.pop = (some old, q1) ∧
      tdDrop.hold_new_message hash64m hash64m mDur3 =
        Except.ok
          ((({ tdDrop with queue := { q1 with
              waiting := (resolveWaiter q1.waiting old.message.id .overflow).1 } }).push_and_flush
              mDur3 ⟨mDur3, WaitAck.new mDur3.ack_kind [10, 20], 0⟩).1,
            (resolveWaiter q1.waiting old.message.id .overflow).2 ++
            (({ tdDrop with queue := { q1 with
              waiting := (resolveWaiter q1.waiting old.message.id .overflow).1 } }).push_and_flush
              mDur3 ⟨mDur3, WaitAck.new mDur3.ack_kind [10, 20], 0⟩).2) :=
  (C6_overflow_policy hash64m hash64m tdDrop mDur3 ⟨2, TopicOverflowPolicy.dropOld⟩ [10, 20]
    rfl (by decide) (by decide) (by decide) (by decide)).2 rfl

/- Survivor lemmas for the admission path, used by the status-growth
invariant. -/

theorem epOnlineScan_fst (imap : InterestMap) (endpoint : EndpointAddr)
    (p : MessageId × HoldMessage) : (epOnlineScan imap endpoint p).1.1 = p.1 := by
  unfold epOnlineScan
  split <;> rfl

theorem alookup_scan (imap : InterestMap) (endpoint : EndpointAddr)
    (l : List (MessageId × HoldMessage)) (mid : MessageId) :
    alookup ((l.map (epOnlineScan imap endpoint)).map Prod.fst) mid =
      (alookup l mid).map (fun hm => (epOnlineScan imap endpoint (mid, hm)).1.2) := by
  induction l with
  | nil => rfl
  | cons p rest ih =>
    obtain ⟨pk, pv⟩ := p
    by_cases hpm : pk = mid
    · subst hpm
      simp only [List.map_cons, alookup, epOnlineScan_fst]
      simp
    · simp only [List.map_cons, alookup, epOnlineScan_fst]
      rw [if_neg hpm, if_neg hpm, ih]

theorem push_and_flush_other_lookup {td : TopicData} {m : Message} (hold : HoldMessage)
    {mid : MessageId} {hm' : HoldMessage}
    (hne : mid ≠ hold.message.id)
    (hafter : alookup (td.push_and_flush m hold).1.queue.hold_messages mid = some hm') :
    alookup td.queue.hold_messages mid = some hm' := by
  unfold TopicData.push_and_flush at hafter
  have h2 := update_and_flush_empty_lookup hafter
  simp only [MessageQueue.push] at h2
  rw [alookup_ainsert_ne _ _ _ _ hne] at h2
  exact h2

theorem admit_other_lookup {td : TopicData} {m : Message} {R : List EndpointAddr}
    {r : TopicData × List Event} {mid : MessageId} {hm' : HoldMessage}
    (hne : mid ≠ m.id)
    (hh : td.admit_message m R = Except.ok r)
    (hafter : alookup r.1.queue.hold_messages mid = some hm') :
    alookup td.queue.hold_messages mid = some hm' := by
  simp only [TopicData.admit_message] at hh
  split at hh
  · split at hh
    · split at hh
      · injection hh with h2
        subst h2
        exact hafter
      · split at hh
        · exact absurd hh (by simp)
        · rename_i old q1 hpop
          injection hh with h2
          subst h2
          have h3 := push_and_flush_other_lookup
            ⟨m, WaitAck.new m.ack_kind R, 0⟩ hne hafter
          rcases ho : td.queue.order with _ | ⟨mid0, rest⟩
          · unfold MessageQueue.pop at hpop
            rw [ho] at hpop
            dsimp only at hpop
            have hfst := congrArg Prod.fst hpop
            simp at hfst
          · unfold MessageQueue.pop at hpop
            rw [ho] at hpop
            dsimp only at hpop
            have hq1 : q1 =
                { td.queue with
                  order := rest,
                  hold_messages := aerase td.queue.hold_messages mid0 } :=
              (congrArg Prod.snd hpop).symm
            rw [hq1] at h3
            exact alookup_aerase_some h3
    · injection hh with h2
      subst h2
      exact push_and_flush_other_lookup ⟨m, WaitAck.new m.ack_kind R, 0⟩ hne hafter
  · injection hh with h2
    subst h2
    exact push_and_flush_other_lookup ⟨m, WaitAck.new m.ack_kind R, 0⟩ hne hafter

theorem hold_new_message_other_lookup {hEp hMid : HashFn} {td : TopicData} {m : Message}
    {r : TopicData × List Event} {mid : MessageId} {hm' : HoldMessage}
    (hne : mid ≠ m.id)
    (hh : td.hold_new_message hEp hMid m = Except.ok r)
    (hafter : alookup r.1.queue.hold_messages mid = some hm') :
    alookup td.queue.hold_messages mid = some hm' := by
  simp only [TopicData.hold_new_message] at hh
  split at hh
  · exact absurd hh (by simp)
  · exact admit_other_lookup hne hh hafter
  · exact admit_other_lookup hne hh hafter
  · split at hh
    · injection hh with h2
      subst h2
      exact hafter
    · exact admit_other_lookup hne hh hafter

/-- C7: the per-endpoint status map of an already-admitted hold message only
grows through `ep_online`, and only when the message is Durable, its subjects
match the onlining endpoint in the updated interest index, and the endpoint
is not yet a key; the new entry is `Unsent` and the message id is marked for
re-poll.  Every other applied operation leaves the key set of a surviving
message unchanged. -/
theorem C7_status_growth (op : TopicOp) (td : TopicData) (mid : MessageId)
    (hm hm' : HoldMessage)
    (hbefore : alookup td.queue.hold_messages mid = some hm)
    (hafter : alookup (applyOp op td).queue.hold_messages mid = some hm')
    (hfresh : opAdmitsFresh op mid) :
    akeys hm'.wait_ack.status = akeys hm.wait_ack.status ∨
    (∃ endpoint interests host now,
      op = TopicOp.epOnline endpoint interests host now ∧
      hm.message.header.target_kind = MessageTargetKind.durable ∧
      alookup hm.wait_ack.status endpoint = none ∧
      hm.message.header.subjects.any
        (fun s => ((epOnlineInterestMap td endpoint interests).find s).contains endpoint) =
        true ∧
      hm'.wait_ack.status = hm.wait_ack.status ++ [(endpoint, MessageStatusKind.unsent)] ∧
      mid ∈ epOnlineNeedPoll td endpoint interests) := by
  cases op with
  | epOffline e =>
    left
    have h2 : some hm = some hm' := hbefore.symm.trans hafter
    injection h2 with h3
    rw [← h3]
  | updateEpInterest e ints =>
    left
    have h2 : some hm = some hm' := hbefore.symm.trans hafter
    injection h2 with h3
    rw [← h3]
  | sendMessage msg ok =>
    left
    cases ok
    · have h2 : some hm = some hm' := hbefore.symm.trans hafter
      injection h2 with h3
      rw [← h3]
    · have h2 : some hm = some hm' := hbefore.symm.trans hafter
      injection h2 with h3
      rw [← h3]
  | loadEpSync infos =>
    left
    have hafter2 : alookup (td.load_ep_sync infos).queue.hold_messages mid = some hm' := hafter
    rw [load_ep_sync_queue] at hafter2
    have h2 : some hm = some hm' := hbefore.symm.trans hafter2
    injection h2 with h3
    rw [← h3]
  | messageStateUpdate u =>
    left
    have hafter2 : alookup (td.update_and_flush u).1.queue.hold_messages mid = some hm' :=
      hafter
    obtain ⟨hm0, hb0, hk⟩ := update_and_flush_keys hafter2
    have h2 : some hm = some hm0 := hbefore.symm.trans hb0
    injection h2 with h3
    rw [hk, ← h3]
  | delegateMessage hEp hMid msg =>
    left
    simp only [applyOp] at hafter
    split at hafter
    · rename_i r hh
      have h4 := hold_new_message_other_lookup hfresh hh hafter
      have h2 : some hm = some hm' := hbefore.symm.trans h4
      injection h2 with h3
      rw [← h3]
    · have h2 : some hm = some hm' := hbefore.symm.trans hafter
      injection h2 with h3
      rw [← h3]
  | epOnline endpoint interests host now =>
    have hafter2 : alookup (repollFold (epOnlineTables td endpoint interests host now)
        (epOnlineNeedPoll td endpoint interests)).1.queue.hold_messages mid = some hm' :=
      hafter
    have h5 := repollFold_lookup hafter2
    have h6 : alookup ((td.queue.hold_messages.map
        (epOnlineScan (epOnlineInterestMap td endpoint interests) endpoint)).map Prod.fst)
        mid = some hm' := h5
    rw [alookup_scan, hbefore, Option.map_some'] at h6
    injection h6 with h7
    by_cases hcond : hm.message.header.target_kind = MessageTargetKind.durable ∧
        alookup hm.wait_ack.status endpoint = none ∧
        hm.message.header.subjects.any
          (fun s => ((epOnlineInterestMap td endpoint interests).find s).contains endpoint) =
          true
    · right
      refine ⟨endpoint, interests, host, now, rfl, hcond.1, hcond.2.1, hcond.2.2, ?_, ?_⟩
      · rw [← h7]
        unfold epOnlineScan
        rw [if_pos hcond]
      · unfold epOnlineNeedPoll
        apply List.mem_filterMap.mpr
        refine ⟨epOnlineScan (epOnlineInterestMap td endpoint interests) endpoint (mid, hm),
          List.mem_map_of_mem _ (alookup_mem hbefore), ?_⟩
        unfold epOnlineScan
        rw [if_pos hcond]
    · left
      rw [← h7]
      unfold epOnlineScan
      rw [if_neg hcond]

/-- C7 witness: the late-joining-endpoint scenario — `ep_online 10 [s]` on a
topic holding Durable message 7 with an empty status map extends it with
`10 ↦ Unsent` and marks id 7 for re-poll. -/
theorem C7_status_growth_witness :
    akeys hmLExt.wait_ack.status = akeys hmL.wait_ack.status ∨
    (∃ endpoint interests host now,
      TopicOp.epOnline 10 [sInterest] 1 42 = TopicOp.epOnline endpoint interests host now ∧
      hmL.message.header.target_kind = MessageTargetKind.durable ∧
      alookup hmL.wait_ack.status endpoint = none ∧
      hmL.message.header.subjects.any
        (fun s => ((epOnlineInterestMap tdLate endpoint interests).find s).contains endpoint) =
        true ∧
      hmLExt.wait_ack.status = hmL.wait_ack.status ++ [(endpoint, MessageStatusKind.unsent)] ∧
      7 ∈ epOnlineNeedPoll tdLate endpoint interests) :=
  C7_status_growth (TopicOp.epOnline 10 [sInterest] 1 42) tdLate 7 hmL hmLExt
    (by decide) (by decide) trivial

end AsteroidMQ
